import Mathlib

/-!
Verification of the SimpleMultithreader fork-join engine
(`simple-multithreader.h`): the range partitioner `sm_split_range`, the
1-D and 2-D `parallel_for` entry points, the row-major flat-index mapper
of `sm_thread_entry_2d`, the overflow guard, the startup-failure unwind,
and the exception contract at the worker boundary.

Modelling conventions:
* C `int` values are mathematical `Int`; C `/` and `%` on `int` are
  truncated division, i.e. `Int.tdiv` and `Int.tmod`.
* `pthread_create` success is an oracle `createOk : Nat → Bool` giving,
  for each spawn index `t`, whether the t-th creation succeeds; a worker
  id is its spawn index.
* The user callback is `body : Int → Bool` (resp. `Int → Int → Bool`);
  `body i = false` models the callback raising an exception at index `i`.
  A raise aborts the surrounding loop, exactly as a C++ throw does.
* A call's outcome is `Except SMError` of an execution record holding,
  per partition, the list of indices on which the callback was actually
  invoked, in invocation order: first the spawned workers (partitions
  `0 .. numThreads-2`, in spawn order), then the calling thread's own
  partition.
-/

/-- Largest value of the C `int` type (`INT_MAX` from `<climits>`). -/
def INT_MAX : Int := 2147483647

/-- Indices visited by the C loop `for (i = a; i < b; ++i)`, in order. -/
def intRange (a b : Int) : List Int :=
  (List.range (b - a).toNat).map (fun k : Nat => a + (k : Int))

/-- Indices of one partition `[start, end)`, as visited by a worker loop. -/
def partIndices (p : Int × Int) : List Int := intRange p.1 p.2

/-- Loop of `sm_split_range`: `t` is the iteration counter, `cur` the
cursor, and the `Nat` argument the iterations left; each iteration
emits the partition `[cur, cur + base + (t < rem ? 1 : 0))`. -/
def sm_split_loop (base rem : Int) : Int → Int → Nat → List (Int × Int)
  | _, _, 0 => []
  | t, cur, n + 1 =>
    (cur, cur + (base + if t < rem then 1 else 0)) ::
      sm_split_loop base rem (t + 1) (cur + (base + if t < rem then 1 else 0)) n

/-- `sm_split_range` from `simple-multithreader.h`: split `[low, high)`
into `numPieces` contiguous pieces. Guards: `numPieces <= 0` yields no
pieces; an empty range yields `numPieces` copies of `[low, low)`. -/
def sm_split_range (low high numPieces : Int) : List (Int × Int) :=
  if numPieces ≤ 0 then []
  else if low ≥ high then List.replicate numPieces.toNat (low, low)
  else
    sm_split_loop ((high - low).tdiv numPieces) ((high - low).tmod numPieces)
      0 low numPieces.toNat

/-- Row-major unflattening performed by `sm_thread_entry_2d` and by the
main-thread loop of the 2-D `parallel_for`:
`i = flat / w + low1`, `j = flat % w + low2` (C truncated `/` and `%`). -/
def map2d (low1 low2 w flat : Int) : Int × Int :=
  (flat.tdiv w + low1, flat.tmod w + low2)

/-- The inverse of `map2d`: row-major flattening of a grid cell. -/
def unmap2d (low1 low2 w : Int) (p : Int × Int) : Int :=
  (p.1 - low1) * w + (p.2 - low2)

/-- Run the callback over a list of indices in order, as the worker and
main-thread loops do: the first index whose callback raises stops the
loop. Returns the indices on which the callback was invoked, and whether
an exception escaped the loop. -/
def runSeq (body : Int → Bool) : List Int → List Int × Bool
  | [] => ([], false)
  | i :: rest =>
    if body i then (i :: (runSeq body rest).1, (runSeq body rest).2)
    else ([i], true)

/-- The spawn loop of both entry points: try to create workers
`t, t+1, ...` while `n` remain; `tids` accumulates ids already spawned.
On a creation failure the loop joins every already-spawned worker (the
whole of `tids`, in order) and only then throws: the error payload is
exactly the list of workers joined before the throw. -/
def sm_spawn_loop (createOk : Nat → Bool) : Nat → Nat → List Nat → Except (List Nat) (List Nat)
  | _, 0, tids => .ok tids
  | t, n + 1, tids =>
    if createOk t then sm_spawn_loop createOk (t + 1) n (tids ++ [t])
    else .error tids

/-- Spawn `toCreate` workers starting from id 0. -/
def sm_spawn (createOk : Nat → Bool) (toCreate : Nat) : Except (List Nat) (List Nat) :=
  sm_spawn_loop createOk 0 toCreate []

/-- The error outcomes of a `parallel_for` call. `startupFailure` carries
the ids of the workers that were joined before the error surfaced. -/
inductive SMError where
  | startupFailure (joined : List Nat)
  | overflowError
  | callbackFailure
deriving DecidableEq

/-- Execution record of a successful 1-D call: one invocation trace per
spawned worker (in spawn order), then the calling thread's trace. -/
structure Exec1D where
  workerRuns : List (List Int)
  mainRun : List Int
deriving DecidableEq

/-- Execution record of a successful 2-D call; traces hold the `(i, j)`
pairs passed to the callback, in invocation order. -/
structure Exec2D where
  workerRuns : List (List (Int × Int))
  mainRun : List (Int × Int)
deriving DecidableEq

/-- The `if (numThreads <= 0) numThreads = 1;` coercion of both entry
points. -/
def ntCoerce (nt : Int) : Int := if nt ≤ 0 then 1 else nt

/-- The 1-D `parallel_for` of `simple-multithreader.h`: coerce
`numThreads`, return at once on an empty range, partition, fall back to
one piece if the partitioner misbehaved, spawn `numThreads - 1` workers,
run the last partition on the calling thread, join. Worker exceptions
are swallowed by `sm_thread_entry_1d`; a main-thread exception escapes. -/
def parallel_for_1d (createOk : Nat → Bool) (body : Int → Bool)
    (low high numThreads : Int) : Except SMError Exec1D :=
  let nt0 := ntCoerce numThreads
  if low ≥ high then .ok ⟨[], []⟩
  else
    let parts0 := sm_split_range low high nt0
    let parts := if (parts0.length : Int) = nt0 then parts0 else sm_split_range low high 1
    let nt := if (parts0.length : Int) = nt0 then nt0 else 1
    let toCreate := (nt - 1).toNat
    match sm_spawn createOk toCreate with
    | .error joined => .error (.startupFailure joined)
    | .ok _ =>
      let workerRuns := (List.range toCreate).map
        (fun t => (runSeq body (partIndices (parts.getD t (0, 0)))).1)
      let mainRes := runSeq body (partIndices (parts.getD toCreate (0, 0)))
      if mainRes.2 then .error .callbackFailure
      else .ok ⟨workerRuns, mainRes.1⟩

/-- The 2-D `parallel_for`: same shape, but the partitioner runs over the
flattened range `[0, rows*cols)` and every flat index is mapped back to
its `(i, j)` pair by `map2d` before the callback is invoked. The
flattened size is computed in `long long` (exact here) and checked
against `INT_MAX` before anything is dispatched. -/
def parallel_for_2d (createOk : Nat → Bool) (body : Int → Int → Bool)
    (low1 high1 low2 high2 numThreads : Int) : Except SMError Exec2D :=
  let nt0 := ntCoerce numThreads
  if low1 ≥ high1 ∨ low2 ≥ high2 then .ok ⟨[], []⟩
  else
    let cols := high2 - low2
    let total := (high1 - low1) * cols
    if total ≤ 0 then .ok ⟨[], []⟩
    else if INT_MAX < total then .error .overflowError
    else
      let parts0 := sm_split_range 0 total nt0
      let parts := if (parts0.length : Int) = nt0 then parts0 else sm_split_range 0 total 1
      let nt := if (parts0.length : Int) = nt0 then nt0 else 1
      let toCreate := (nt - 1).toNat
      let bodyFlat := fun flat =>
        body (map2d low1 low2 cols flat).1 (map2d low1 low2 cols flat).2
      match sm_spawn createOk toCreate with
      | .error joined => .error (.startupFailure joined)
      | .ok _ =>
        let workerRuns := (List.range toCreate).map
          (fun t => ((runSeq bodyFlat (partIndices (parts.getD t (0, 0)))).1).map
            (map2d low1 low2 cols))
        let mainRes := runSeq bodyFlat (partIndices (parts.getD toCreate (0, 0)))
        if mainRes.2 then .error .callbackFailure
        else .ok ⟨workerRuns, mainRes.1.map (map2d low1 low2 cols)⟩

/-- All callback invocations of a 1-D call, in partition order. -/
def invocations1D (r : Except SMError Exec1D) : List Int :=
  match r with
  | .ok e => e.workerRuns.flatten ++ e.mainRun
  | .error _ => []

/-- All callback invocations of a 2-D call, in partition order. -/
def invocations2D (r : Except SMError Exec2D) : List (Int × Int) :=
  match r with
  | .ok e => e.workerRuns.flatten ++ e.mainRun
  | .error _ => []

/-- Sizes of the per-partition traces of a 1-D call, workers first. -/
def runSizes1D (r : Except SMError Exec1D) : List Nat :=
  match r with
  | .ok e => (e.workerRuns ++ [e.mainRun]).map List.length
  | .error _ => []

/-- Sizes of the per-partition traces of a 2-D call, workers first. -/
def runSizes2D (r : Except SMError Exec2D) : List Nat :=
  match r with
  | .ok e => (e.workerRuns ++ [e.mainRun]).map List.length
  | .error _ => []

/-- Whether a call returned normally (no exception reached the caller). -/
def exceptOk {ε α : Type} : Except ε α → Bool
  | .ok _ => true
  | .error _ => false

/-- `tilesFrom a parts b` says the pieces in `parts` are laid out
consecutively from `a` to `b`: each piece starts where the previous one
ended, with no gaps. -/
def tilesFrom : Int → List (Int × Int) → Int → Bool
  | a, [], b => a == b
  | a, (s, e) :: rest, b => (s == a) && tilesFrom e rest b

/-- The partition the calling thread itself executes in a 1-D call
(the last one). -/
def mainPartition1D (low high nt : Int) : Int × Int :=
  (sm_split_range low high (ntCoerce nt)).getD ((ntCoerce nt - 1).toNat) (0, 0)

/-- Sum of the partition sizes emitted by `sm_split_loop` from iteration
`t` with `n` iterations left. -/
def loopSum (base rem : Int) : Int → Nat → Int
  | _, 0 => 0
  | t, n + 1 => (base + if t < rem then 1 else 0) + loopSum base rem (t + 1) n

/-- Flattened size `rows * cols` of a 2-D range, as the code computes it
in `long long` (exact here). -/
def flatTotal (low1 high1 low2 high2 : Int) : Int := (high1 - low1) * (high2 - low2)

/-- The flat partition the calling thread itself executes in a 2-D call
(the last partition of the flattened range). -/
def mainPartition2D (low1 high1 low2 high2 nt : Int) : Int × Int :=
  mainPartition1D 0 (flatTotal low1 high1 low2 high2) nt

/-! ### Basic facts about `intRange` -/

theorem intRange_self (a : Int) : intRange a a = [] := by
  simp [intRange]

theorem mem_intRange {a b x : Int} : x ∈ intRange a b ↔ a ≤ x ∧ x < b := by
  simp only [intRange, List.mem_map, List.mem_range]
  constructor
  · rintro ⟨k, hk, rfl⟩; omega
  · rintro ⟨h1, h2⟩; exact ⟨(x - a).toNat, by omega, by omega⟩

theorem nodup_intRange (a b : Int) : (intRange a b).Nodup :=
  List.Nodup.map (fun k1 k2 h => by omega) (List.nodup_range _)

theorem count_intRange (a b x : Int) :
    (intRange a b).count x = if a ≤ x ∧ x < b then 1 else 0 := by
  by_cases h : a ≤ x ∧ x < b
  · rw [if_pos h]
    exact List.count_eq_one_of_mem (nodup_intRange a b) (mem_intRange.2 h)
  · rw [if_neg h]
    exact List.count_eq_zero.2 (fun hm => h (mem_intRange.1 hm))

theorem intRange_append {a b c : Int} (h1 : a ≤ b) (h2 : b ≤ c) :
    intRange a b ++ intRange b c = intRange a c := by
  unfold intRange
  have hbc : (c - a).toNat = (b - a).toNat + (c - b).toNat := by omega
  rw [hbc, List.range_add, List.map_append, List.map_map]
  congr 1
  refine List.map_congr_left (fun k hk => ?_)
  simp only [Function.comp_apply]
  push_cast
  omega

theorem pairwise_intRange (a b : Int) : (intRange a b).Pairwise (· < ·) :=
  List.Pairwise.map _ (fun k1 k2 h => by omega) (List.sorted_lt_range _)

/-! ### Facts about the partition loop of `sm_split_range` -/

theorem sm_split_loop_length (base rem t cur : Int) (n : Nat) :
    (sm_split_loop base rem t cur n).length = n := by
  induction n generalizing t cur with
  | zero => rfl
  | succ m ih => simp [sm_split_loop, ih]

theorem loopSum_eq (base rem t : Int) (n : Nat) :
    loopSum base rem t n = base * n + min (n : Int) (max 0 (rem - t)) := by
  induction n generalizing t with
  | zero => simp [loopSum]
  | succ m ih =>
    rw [loopSum, ih]
    push_cast
    by_cases h : t < rem
    · rw [if_pos h]; ring_nf; omega
    · rw [if_neg h]; ring_nf; omega

theorem loopSum_nonneg (base rem t : Int) (n : Nat) (hb : 0 ≤ base) :
    0 ≤ loopSum base rem t n := by
  induction n generalizing t with
  | zero => simp [loopSum]
  | succ m ih =>
    rw [loopSum]
    have h2 := ih (t + 1)
    by_cases h : t < rem
    · rw [if_pos h]; omega
    · rw [if_neg h]; omega

theorem sm_split_loop_flatten (base rem : Int) (hb : 0 ≤ base) (t cur : Int) (n : Nat) :
    ((sm_split_loop base rem t cur n).map partIndices).flatten
      = intRange cur (cur + loopSum base rem t n) := by
  induction n generalizing t cur with
  | zero =>
    show ([] : List (List Int)).flatten = intRange cur (cur + loopSum base rem t 0)
    rw [loopSum]
    simp [intRange_self]
  | succ m ih =>
    rw [sm_split_loop]
    simp only [List.map_cons, List.flatten_cons]
    rw [ih]
    have hadd : (0:Int) ≤ base + if t < rem then 1 else 0 := by
      by_cases h : t < rem
      · rw [if_pos h]; omega
      · rw [if_neg h]; omega
    have hsum := loopSum_nonneg base rem (t + 1) m hb
    have hpi : partIndices (cur, cur + (base + if t < rem then 1 else 0))
        = intRange cur (cur + (base + if t < rem then 1 else 0)) := rfl
    rw [hpi, intRange_append (by omega) (by omega)]
    congr 1
    rw [loopSum]
    ring

theorem sm_split_loop_tiles (base rem t cur : Int) (n : Nat) :
    tilesFrom cur (sm_split_loop base rem t cur n) (cur + loopSum base rem t n) = true := by
  induction n generalizing t cur with
  | zero =>
    show tilesFrom cur [] (cur + loopSum base rem t 0) = true
    rw [loopSum]
    simp [tilesFrom]
  | succ m ih =>
    rw [sm_split_loop, loopSum, tilesFrom]
    have harr : cur + ((base + if t < rem then 1 else 0) + loopSum base rem (t + 1) m)
        = (cur + (base + if t < rem then 1 else 0)) + loopSum base rem (t + 1) m := by ring
    rw [harr]
    simp [ih]

theorem sm_split_loop_getD (base rem t cur : Int) (n k : Nat) (hk : k < n) :
    ((sm_split_loop base rem t cur n).getD k (0, 0)).2
      - ((sm_split_loop base rem t cur n).getD k (0, 0)).1
      = base + if t + (k : Int) < rem then 1 else 0 := by
  induction n generalizing t cur k with
  | zero => omega
  | succ m ih =>
    cases k with
    | zero =>
      rw [sm_split_loop]
      simp
    | succ j =>
      rw [sm_split_loop]
      simp only [List.getD_cons_succ]
      rw [ih _ _ j (by omega)]
      by_cases h : t + ((j + 1 : Nat) : Int) < rem
      · rw [if_pos (by push_cast at h ⊢; omega), if_pos h]
      · rw [if_neg (by push_cast at h ⊢; omega), if_neg h]

/-! ### Facts about `sm_split_range` -/

theorem sm_split_range_length (low high n : Int) (hn : 0 < n) :
    (sm_split_range low high n).length = n.toNat := by
  unfold sm_split_range
  rw [if_neg (by omega)]
  by_cases h : low ≥ high
  · rw [if_pos h, List.length_replicate]
  · rw [if_neg h, sm_split_loop_length]

theorem split_arith (low high n : Int) (h : low < high) (hn : 0 < n) :
    0 ≤ (high - low).tdiv n ∧
      loopSum ((high - low).tdiv n) ((high - low).tmod n) 0 n.toNat = high - low := by
  have h1 : 0 ≤ (high - low).tdiv n := Int.tdiv_nonneg (by omega) (by omega)
  have h2 : 0 ≤ (high - low).tmod n := Int.tmod_nonneg _ (by omega)
  have h3 : (high - low).tmod n < n := Int.tmod_lt_of_pos _ hn
  have h4 := Int.tdiv_add_tmod (high - low) n
  refine ⟨h1, ?_⟩
  rw [loopSum_eq]
  have hc : ((n.toNat : Nat) : Int) = n := by omega
  rw [hc]
  have hmin : min n (max 0 ((high - low).tmod n - 0)) = (high - low).tmod n := by omega
  rw [hmin]
  linear_combination h4

theorem sm_split_range_flatten (low high n : Int) (h : low < high) (hn : 0 < n) :
    ((sm_split_range low high n).map partIndices).flatten = intRange low high := by
  obtain ⟨hb, hs⟩ := split_arith low high n h hn
  unfold sm_split_range
  rw [if_neg (by omega), if_neg (by omega), sm_split_loop_flatten _ _ hb, hs]
  congr 1
  omega

theorem sm_split_range_tiles (low high n : Int) (h : low < high) (hn : 0 < n) :
    tilesFrom low (sm_split_range low high n) high = true := by
  obtain ⟨hb, hs⟩ := split_arith low high n h hn
  unfold sm_split_range
  rw [if_neg (by omega), if_neg (by omega)]
  have ht := sm_split_loop_tiles ((high - low).tdiv n) ((high - low).tmod n) 0 low n.toNat
  rw [hs] at ht
  have he : low + (high - low) = high := by ring
  rw [he] at ht
  exact ht

theorem sm_split_range_sizes (low high n : Int) (h : low < high) (hn : 0 < n)
    (k : Nat) (hk : k < n.toNat) :
    ((sm_split_range low high n).getD k (0, 0)).2
      - ((sm_split_range low high n).getD k (0, 0)).1
      = (high - low).tdiv n + if (k : Int) < (high - low).tmod n then 1 else 0 := by
  unfold sm_split_range
  rw [if_neg (by omega), if_neg (by omega)]
  have hg := sm_split_loop_getD ((high - low).tdiv n) ((high - low).tmod n) 0 low n.toNat k hk
  simpa using hg

/-! ### Facts about `runSeq` -/

theorem runSeq_all_true (body : Int → Bool) (l : List Int) (h : ∀ i ∈ l, body i = true) :
    runSeq body l = (l, false) := by
  induction l with
  | nil => rfl
  | cons i rest ih =>
    rw [runSeq, if_pos (h i (by simp)), ih (fun j hj => h j (by simp [hj]))]

theorem runSeq_sublist (body : Int → Bool) (l : List Int) :
    List.Sublist (runSeq body l).1 l := by
  induction l with
  | nil => simp [runSeq]
  | cons i rest ih =>
    rw [runSeq]
    by_cases h : body i
    · rw [if_pos h]; exact List.Sublist.cons₂ i ih
    · rw [if_neg h]; exact List.Sublist.cons₂ i (List.nil_sublist rest)

theorem runSeq_raised_iff (body : Int → Bool) (l : List Int) :
    (runSeq body l).2 = true ↔ ∃ i ∈ l, body i = false := by
  induction l with
  | nil => simp [runSeq]
  | cons i rest ih =>
    rw [runSeq]
    by_cases h : body i
    · rw [if_pos h]
      simp only [List.mem_cons]
      constructor
      · intro hr
        obtain ⟨j, hj, hb⟩ := ih.1 hr
        exact ⟨j, Or.inr hj, hb⟩
      · rintro ⟨j, hj | hj, hb⟩
        · rw [hj] at hb; rw [h] at hb; cases hb
        · exact ih.2 ⟨j, hj, hb⟩
    · rw [if_neg h]
      refine ⟨fun _ => ⟨i, by simp, by simpa using h⟩, fun _ => rfl⟩

/-! ### Facts about the spawn loop -/

theorem sm_spawn_loop_ok (createOk : Nat → Bool) (hok : ∀ t, createOk t = true) :
    ∀ (n t : Nat) (tids : List Nat), ∃ out, sm_spawn_loop createOk t n tids = .ok out := by
  intro n
  induction n with
  | zero => intro t tids; exact ⟨tids, rfl⟩
  | succ m ih =>
    intro t tids
    rw [sm_spawn_loop, if_pos (hok t)]
    exact ih (t + 1) (tids ++ [t])

theorem sm_spawn_ok (createOk : Nat → Bool) (n : Nat) (hok : ∀ t, createOk t = true) :
    ∃ out, sm_spawn createOk n = .ok out :=
  sm_spawn_loop_ok createOk hok n 0 []

theorem sm_spawn_loop_fail (createOk : Nat → Bool) (k : Nat) :
    ∀ (t n : Nat) (tids : List Nat), k < n →
      (∀ j, j < k → createOk (t + j) = true) → createOk (t + k) = false →
      sm_spawn_loop createOk t n tids
        = .error (tids ++ (List.range k).map (fun j => t + j)) := by
  induction k with
  | zero =>
    intro t n tids hn hok hfail
    match n, hn with
    | m + 1, _ =>
      rw [sm_spawn_loop, if_neg (by simpa using hfail)]
      simp
  | succ m ih =>
    intro t n tids hn hok hfail
    match n, hn with
    | n' + 1, hn =>
      rw [sm_spawn_loop, if_pos (by simpa using hok 0 (by omega))]
      rw [ih (t + 1) n' (tids ++ [t]) (by omega)
        (fun j hj => by
          have hj2 := hok (j + 1) (by omega)
          have he : t + (j + 1) = t + 1 + j := by omega
          rw [he] at hj2
          exact hj2)
        (by
          have he : t + (m + 1) = t + 1 + m := by omega
          rw [he] at hfail
          exact hfail)]
      have hmap : List.map (fun j => t + j) (List.range (m + 1))
          = t :: List.map (fun j => t + 1 + j) (List.range m) := by
        simp only [List.range_succ_eq_map, List.map_cons, List.map_map, Nat.add_zero]
        refine congrArg (List.cons t) (List.map_congr_left (fun j hj => ?_))
        simp only [Function.comp_apply]
        omega
      rw [List.append_assoc, List.singleton_append, hmap]

theorem sm_spawn_fail (createOk : Nat → Bool) (k n : Nat) (hn : k < n)
    (hok : ∀ j, j < k → createOk j = true) (hfail : createOk k = false) :
    sm_spawn createOk n = .error (List.range k) := by
  have hs := sm_spawn_loop_fail createOk k 0 n [] hn
    (fun j hj => by simpa using hok j hj) (by simpa using hfail)
  rw [sm_spawn, hs]
  congr 1
  simp

/-! ### Indexing helper -/

theorem getD_range_map {α β : Type} (l : List α) (d : α) (f : α → β) :
    (List.range l.length).map (fun t => f (l.getD t d)) = l.map f := by
  induction l with
  | nil => rfl
  | cons x xs ih =>
    have htail : (List.range xs.length).map ((fun t => f ((x :: xs).getD t d)) ∘ Nat.succ)
        = (List.range xs.length).map (fun t => f (xs.getD t d)) :=
      List.map_congr_left (fun t ht => rfl)
    rw [List.length_cons, List.range_succ_eq_map, List.map_cons, List.map_map, List.map_cons,
      htail, ih]
    rfl

/-! ### Normal form of a 1-D call when every spawn succeeds -/

theorem runSeq_const_true (l : List Int) : runSeq (fun _ => true) l = (l, false) :=
  runSeq_all_true _ l (fun i _ => rfl)

theorem pf1_run (createOk : Nat → Bool) (body : Int → Bool) (low high nt : Int)
    (h : low < high) (hok : ∀ t, createOk t = true) :
    parallel_for_1d createOk body low high nt
      = if (runSeq body (partIndices (mainPartition1D low high nt))).2
        then .error .callbackFailure
        else .ok ⟨(List.range ((ntCoerce nt - 1).toNat)).map
            (fun t => (runSeq body (partIndices
              ((sm_split_range low high (ntCoerce nt)).getD t (0, 0)))).1),
          (runSeq body (partIndices (mainPartition1D low high nt))).1⟩ := by
  have hnt : 0 < ntCoerce nt := by unfold ntCoerce; split <;> omega
  have hlen : ((sm_split_range low high (ntCoerce nt)).length : Int) = ntCoerce nt := by
    rw [sm_split_range_length low high _ hnt]; omega
  obtain ⟨out, hout⟩ := sm_spawn_ok createOk ((ntCoerce nt - 1).toNat) hok
  simp only [parallel_for_1d, hlen, eq_self_iff_true, if_true, hout]
  rw [if_neg (show ¬ low ≥ high by omega)]
  rfl

theorem parts_flatten_split (low high nt : Int) (h : low < high) :
    ((List.range ((ntCoerce nt - 1).toNat)).map
        (fun t => partIndices ((sm_split_range low high (ntCoerce nt)).getD t (0, 0)))).flatten
      ++ partIndices (mainPartition1D low high nt)
      = intRange low high := by
  have hnt : 0 < ntCoerce nt := by unfold ntCoerce; split <;> omega
  have hlen : (sm_split_range low high (ntCoerce nt)).length = (ntCoerce nt).toNat :=
    sm_split_range_length low high _ hnt
  have hsucc : (ntCoerce nt).toNat = (ntCoerce nt - 1).toNat + 1 := by omega
  have hmap := getD_range_map (sm_split_range low high (ntCoerce nt)) (0, 0) partIndices
  rw [hlen, hsucc, List.range_succ, List.map_append] at hmap
  have hfl := sm_split_range_flatten low high (ntCoerce nt) h hnt
  rw [← hmap, List.flatten_append] at hfl
  simpa [mainPartition1D] using hfl

/-- Claim C1: for every `low < high` and every `numThreads`, the 1-D
`parallel_for` returns normally and invokes the callback exactly once on
each index of `[low, high)` and on no other index; in particular the call
`parallel_for(0, 10, body, 3)` invokes the callback once on each of
`0..9`, with partition sizes `4, 3, 3` in that order (workers first,
calling thread last). -/
theorem c1_parallel_for_1d_each_index_once :
    (∀ low high nt : Int, low < high →
      exceptOk (parallel_for_1d (fun _ => true) (fun _ => true) low high nt) = true ∧
      ∀ i : Int,
        (invocations1D (parallel_for_1d (fun _ => true) (fun _ => true) low high nt)).count i
          = if low ≤ i ∧ i < high then 1 else 0) ∧
    runSizes1D (parallel_for_1d (fun _ => true) (fun _ => true) 0 10 3) = [4, 3, 3] ∧
    invocations1D (parallel_for_1d (fun _ => true) (fun _ => true) 0 10 3)
      = [0, 1, 2, 3, 4, 5, 6, 7, 8, 9] := by
  refine ⟨?_, by decide, by decide⟩
  intro low high nt h
  rw [pf1_run (fun _ => true) (fun _ => true) low high nt h (fun t => rfl)]
  simp only [runSeq_const_true]
  rw [if_neg (by simp)]
  refine ⟨rfl, fun i => ?_⟩
  simp only [invocations1D]
  rw [parts_flatten_split low high nt h, count_intRange]

/-- Witness for C1 at `low = 0`, `high = 10`, `numThreads = 3`, `i = 5`. -/
theorem c1_witness :
    exceptOk (parallel_for_1d (fun _ => true) (fun _ => true) 0 10 3) = true ∧
    (invocations1D (parallel_for_1d (fun _ => true) (fun _ => true) 0 10 3)).count 5
      = if (0 : Int) ≤ 5 ∧ (5 : Int) < 10 then 1 else 0 :=
  ⟨(c1_parallel_for_1d_each_index_once.1 0 10 3 (by decide)).1,
   (c1_parallel_for_1d_each_index_once.1 0 10 3 (by decide)).2 5⟩

/-- Claim C2: for `low < high` and `n ≥ 1`, `sm_split_range` returns
exactly `n` partitions that are laid out consecutively from `low` to
`high` (ordered, contiguous, no gaps), cover every index of `[low, high)`
exactly once, have size `base + 1` for the first `rem` partitions and
`base` for the rest (`base = total / n`, `rem = total % n`, C truncated
division), so that no two partition sizes differ by more than 1. -/
theorem c2_split_range_partitions :
    ∀ low high n : Int, low < high → 1 ≤ n →
      ((sm_split_range low high n).length : Int) = n ∧
      tilesFrom low (sm_split_range low high n) high = true ∧
      (∀ x : Int, (((sm_split_range low high n).map partIndices).flatten).count x
        = if low ≤ x ∧ x < high then 1 else 0) ∧
      (∀ k : Nat, k < (sm_split_range low high n).length →
        ((sm_split_range low high n).getD k (0, 0)).2
          - ((sm_split_range low high n).getD k (0, 0)).1
          = (high - low).tdiv n + (if (k : Int) < (high - low).tmod n then 1 else 0)) ∧
      (∀ k1 k2 : Nat, k1 < (sm_split_range low high n).length →
        k2 < (sm_split_range low high n).length →
        (((sm_split_range low high n).getD k1 (0, 0)).2
            - ((sm_split_range low high n).getD k1 (0, 0)).1)
          - (((sm_split_range low high n).getD k2 (0, 0)).2
            - ((sm_split_range low high n).getD k2 (0, 0)).1) ≤ 1) := by
  intro low high n h hn
  have hnp : 0 < n := hn
  have hlen := sm_split_range_length low high n hnp
  refine ⟨by rw [hlen]; omega, sm_split_range_tiles low high n h hnp, ?_, ?_, ?_⟩
  · intro x
    rw [sm_split_range_flatten low high n h hnp, count_intRange]
  · intro k hk
    rw [hlen] at hk
    exact sm_split_range_sizes low high n h hnp k hk
  · intro k1 k2 hk1 hk2
    rw [hlen] at hk1 hk2
    rw [sm_split_range_sizes low high n h hnp k1 hk1,
        sm_split_range_sizes low high n h hnp k2 hk2]
    by_cases h1 : (k1 : Int) < (high - low).tmod n
    · by_cases h2 : (k2 : Int) < (high - low).tmod n
      · rw [if_pos h1, if_pos h2]; omega
      · rw [if_pos h1, if_neg h2]; omega
    · by_cases h2 : (k2 : Int) < (high - low).tmod n
      · rw [if_neg h1, if_pos h2]; omega
      · rw [if_neg h1, if_neg h2]; omega

/-- Witness for C2 at `low = 0`, `high = 10`, `n = 3`. -/
theorem c2_witness :
    ((sm_split_range 0 10 3).length : Int) = 3 ∧
      tilesFrom 0 (sm_split_range 0 10 3) 10 = true :=
  ⟨(c2_split_range_partitions 0 10 3 (by decide) (by decide)).1,
   (c2_split_range_partitions 0 10 3 (by decide) (by decide)).2.1⟩

/-! ### Facts about the 2-D index mapping -/

theorem map2d_spec (low1 low2 w flat : Int) (hw : 0 < w) (hf : 0 ≤ flat) :
    map2d low1 low2 w flat = (flat / w + low1, flat % w + low2) := by
  unfold map2d
  rw [Int.tdiv_eq_ediv hf (le_of_lt hw), Int.tmod_eq_emod hf (le_of_lt hw)]

theorem map2d_mem (low1 low2 w rows : Int) (hw : 0 < w) (flat : Int)
    (h0 : 0 ≤ flat) (h1 : flat < rows * w) :
    low1 ≤ (map2d low1 low2 w flat).1 ∧ (map2d low1 low2 w flat).1 < low1 + rows ∧
    low2 ≤ (map2d low1 low2 w flat).2 ∧ (map2d low1 low2 w flat).2 < low2 + w := by
  rw [map2d_spec _ _ _ _ hw h0]
  have hq0 : 0 ≤ flat / w := Int.ediv_nonneg h0 (le_of_lt hw)
  have hq1 : flat / w < rows := (Int.ediv_lt_iff_lt_mul hw).2 h1
  have hm0 : 0 ≤ flat % w := Int.emod_nonneg _ (by omega)
  have hm1 : flat % w < w := Int.emod_lt_of_pos _ hw
  refine ⟨?_, ?_, ?_, ?_⟩ <;> dsimp only <;> linarith

theorem map2d_inj (low1 low2 w : Int) (hw : w ≠ 0) (a b : Int)
    (h : map2d low1 low2 w a = map2d low1 low2 w b) : a = b := by
  unfold map2d at h
  have h1 : a.tdiv w = b.tdiv w := by
    have hf := congrArg Prod.fst h
    simpa using hf
  have h2 : a.tmod w = b.tmod w := by
    have hs := congrArg Prod.snd h
    simpa using hs
  have ha := Int.tdiv_add_tmod a w
  rw [h1, h2] at ha
  rw [← ha]
  exact Int.tdiv_add_tmod b w

theorem map2d_unmap2d (low1 low2 w : Int) (hw : 0 < w) (i j : Int)
    (hi0 : low1 ≤ i) (hj0 : low2 ≤ j) (hj1 : j < low2 + w) :
    map2d low1 low2 w (unmap2d low1 low2 w (i, j)) = (i, j) := by
  have h0 : 0 ≤ j - low2 := by omega
  have h1 : j - low2 < w := by omega
  have hflat : unmap2d low1 low2 w (i, j) = (j - low2) + (i - low1) * w := by
    unfold unmap2d; ring
  have hnn : 0 ≤ unmap2d low1 low2 w (i, j) := by
    rw [hflat]
    have := mul_nonneg (show (0:Int) ≤ i - low1 by omega) (le_of_lt hw)
    linarith
  rw [map2d_spec _ _ _ _ hw hnn, hflat]
  have hd : ((j - low2) + (i - low1) * w) / w = i - low1 := by
    rw [Int.add_mul_ediv_right _ _ (by omega), Int.ediv_eq_zero_of_lt h0 h1]
    ring
  have hm : ((j - low2) + (i - low1) * w) % w = j - low2 := by
    rw [Int.add_mul_emod_self, Int.emod_eq_of_lt h0 h1]
  rw [hd, hm]
  rw [show i - low1 + low1 = i from by ring, show j - low2 + low2 = j from by ring]

theorem unmap2d_map2d (low1 low2 w flat : Int) (hw : 0 < w) (hf : 0 ≤ flat) :
    unmap2d low1 low2 w (map2d low1 low2 w flat) = flat := by
  rw [map2d_spec _ _ _ _ hw hf]
  show (flat / w + low1 - low1) * w + (flat % w + low2 - low2) = flat
  have e1 : flat / w + low1 - low1 = flat / w := by ring
  have e2 : flat % w + low2 - low2 = flat % w := by ring
  rw [e1, e2, Int.ediv_add_emod']

theorem unmap2d_range (low1 low2 w rows : Int) (hw : 0 < w) (i j : Int)
    (hi0 : low1 ≤ i) (hi1 : i < low1 + rows) (hj0 : low2 ≤ j) (hj1 : j < low2 + w) :
    0 ≤ unmap2d low1 low2 w (i, j) ∧ unmap2d low1 low2 w (i, j) < rows * w := by
  unfold unmap2d
  dsimp only []
  constructor
  · have hp := mul_nonneg (show (0:Int) ≤ i - low1 by omega) (le_of_lt hw)
    linarith
  · have hmul : (i - low1) * w ≤ (rows - 1) * w :=
      mul_le_mul_of_nonneg_right (by omega) (le_of_lt hw)
    have hexp : (rows - 1) * w = rows * w - w := by ring
    linarith

theorem count_eq_one_of_mem_beq {α : Type} [BEq α] [LawfulBEq α] {a : α} {l : List α}
    (d : l.Nodup) (h : a ∈ l) : l.count a = 1 := by
  induction l with
  | nil => cases h
  | cons b rest ih =>
    rw [List.count_cons]
    rw [List.nodup_cons] at d
    rcases List.mem_cons.1 h with h1 | h1
    · subst h1
      rw [List.count_eq_zero_of_not_mem d.1]
      simp
    · rw [ih d.2 h1]
      have hne : ¬ (b == a) = true := by
        intro hb
        have hba : b = a := eq_of_beq hb
        subst hba
        exact d.1 h1
      simp [hne]

theorem count_map2d_intRange (low1 low2 w rows : Int) (hw : 0 < w)
    (i j : Int) :
    ((intRange 0 (rows * w)).map (map2d low1 low2 w)).count (i, j)
      = if low1 ≤ i ∧ i < low1 + rows ∧ low2 ≤ j ∧ j < low2 + w then 1 else 0 := by
  by_cases h : low1 ≤ i ∧ i < low1 + rows ∧ low2 ≤ j ∧ j < low2 + w
  · rw [if_pos h]
    obtain ⟨ha, hb, hc, hd⟩ := h
    apply count_eq_one_of_mem_beq
    · exact List.Nodup.map_on
        (fun a hx b hy hab => map2d_inj _ _ _ (by omega) a b hab)
        (nodup_intRange _ _)
    · rw [List.mem_map]
      refine ⟨unmap2d low1 low2 w (i, j), ?_, map2d_unmap2d _ _ _ hw i j ha hc hd⟩
      rw [mem_intRange]
      exact unmap2d_range low1 low2 w rows hw i j ha hb hc hd
  · rw [if_neg h]
    apply List.count_eq_zero_of_not_mem
    intro hmem
    rw [List.mem_map] at hmem
    obtain ⟨flat, hfl, hfe⟩ := hmem
    rw [mem_intRange] at hfl
    have hg := map2d_mem low1 low2 w rows hw flat hfl.1 hfl.2
    rw [hfe] at hg
    exact h hg

/-! ### Normal form of a 2-D call when every spawn succeeds -/

theorem pf2_run (createOk : Nat → Bool) (body : Int → Int → Bool)
    (low1 high1 low2 high2 nt : Int)
    (h1 : low1 < high1) (h2 : low2 < high2)
    (hmax : flatTotal low1 high1 low2 high2 ≤ INT_MAX)
    (hok : ∀ t, createOk t = true) :
    parallel_for_2d createOk body low1 high1 low2 high2 nt
      = if (runSeq (fun flat => body (map2d low1 low2 (high2 - low2) flat).1
              (map2d low1 low2 (high2 - low2) flat).2)
            (partIndices (mainPartition2D low1 high1 low2 high2 nt))).2
        then .error .callbackFailure
        else .ok ⟨(List.range ((ntCoerce nt - 1).toNat)).map
            (fun t => ((runSeq (fun flat => body (map2d low1 low2 (high2 - low2) flat).1
                  (map2d low1 low2 (high2 - low2) flat).2)
                (partIndices ((sm_split_range 0 (flatTotal low1 high1 low2 high2)
                  (ntCoerce nt)).getD t (0, 0)))).1).map
              (map2d low1 low2 (high2 - low2))),
          ((runSeq (fun flat => body (map2d low1 low2 (high2 - low2) flat).1
              (map2d low1 low2 (high2 - low2) flat).2)
            (partIndices (mainPartition2D low1 high1 low2 high2 nt))).1).map
            (map2d low1 low2 (high2 - low2))⟩ := by
  have htot : 0 < flatTotal low1 high1 low2 high2 :=
    mul_pos (by omega) (by omega)
  have hnt : 0 < ntCoerce nt := by unfold ntCoerce; split <;> omega
  have hlen : ((sm_split_range 0 (flatTotal low1 high1 low2 high2) (ntCoerce nt)).length : Int)
      = ntCoerce nt := by
    rw [sm_split_range_length _ _ _ hnt]; omega
  obtain ⟨out, hout⟩ := sm_spawn_ok createOk ((ntCoerce nt - 1).toNat) hok
  unfold flatTotal at htot hmax hlen
  simp only [parallel_for_2d, flatTotal, mainPartition2D, mainPartition1D, hlen,
    eq_self_iff_true, if_true, hout]
  rw [if_neg (show ¬ (low1 ≥ high1 ∨ low2 ≥ high2) by omega),
    if_neg (show ¬ (high1 - low1) * (high2 - low2) ≤ 0 by omega),
    if_neg (show ¬ INT_MAX < (high1 - low1) * (high2 - low2) by omega)]

theorem parts_flatten_split_2d (total nt : Int) (h : 0 < total) (f : Int → Int × Int) :
    ((List.range ((ntCoerce nt - 1).toNat)).map
        (fun t => ((partIndices ((sm_split_range 0 total (ntCoerce nt)).getD t (0, 0)))).map f)).flatten
      ++ (partIndices (mainPartition1D 0 total nt)).map f
      = (intRange 0 total).map f := by
  have h1d := parts_flatten_split 0 total nt h
  have hmapped := congrArg (List.map f) h1d
  rw [List.map_append, List.map_flatten, List.map_map] at hmapped
  simpa [Function.comp] using hmapped

/-- Claim C3: for every 2-D range with both dimensions non-empty and a
flattened size within `INT_MAX`, the 2-D `parallel_for` returns normally
and invokes the callback exactly once per grid cell `(i, j)` with
`low1 ≤ i < high1`, `low2 ≤ j < high2`, and on no other pair, by
partitioning the flattened range `[0, rows*cols)` and unflattening via
`map2d`; in particular `parallel_for(0, 3, 0, 4, body, 2)` invokes the
callback once per each of the 12 cells, the flat range being split into
two partitions of sizes 6 and 6. -/
theorem c3_parallel_for_2d_each_cell_once :
    (∀ low1 high1 low2 high2 nt : Int, low1 < high1 → low2 < high2 →
      flatTotal low1 high1 low2 high2 ≤ INT_MAX →
      exceptOk (parallel_for_2d (fun _ => true) (fun _ _ => true)
        low1 high1 low2 high2 nt) = true ∧
      ∀ i j : Int,
        (invocations2D (parallel_for_2d (fun _ => true) (fun _ _ => true)
            low1 high1 low2 high2 nt)).count (i, j)
          = if low1 ≤ i ∧ i < high1 ∧ low2 ≤ j ∧ j < high2 then 1 else 0) ∧
    runSizes2D (parallel_for_2d (fun _ => true) (fun _ _ => true) 0 3 0 4 2) = [6, 6] ∧
    invocations2D (parallel_for_2d (fun _ => true) (fun _ _ => true) 0 3 0 4 2)
      = [(0, 0), (0, 1), (0, 2), (0, 3), (1, 0), (1, 1), (1, 2), (1, 3),
         (2, 0), (2, 1), (2, 2), (2, 3)] := by
  refine ⟨?_, by decide, by decide⟩
  intro low1 high1 low2 high2 nt h1 h2 hmax
  have htot : 0 < flatTotal low1 high1 low2 high2 := mul_pos (by omega) (by omega)
  rw [pf2_run (fun _ => true) (fun _ _ => true) low1 high1 low2 high2 nt h1 h2 hmax
    (fun t => rfl)]
  simp only [runSeq_const_true]
  rw [if_neg (by simp)]
  refine ⟨rfl, fun i j => ?_⟩
  simp only [invocations2D, mainPartition2D]
  rw [parts_flatten_split_2d (flatTotal low1 high1 low2 high2) nt htot
    (map2d low1 low2 (high2 - low2))]
  unfold flatTotal
  rw [count_map2d_intRange low1 low2 (high2 - low2) (high1 - low1) (by omega) i j]
  have hiff : (low1 ≤ i ∧ i < low1 + (high1 - low1) ∧ low2 ≤ j ∧ j < low2 + (high2 - low2))
      ↔ (low1 ≤ i ∧ i < high1 ∧ low2 ≤ j ∧ j < high2) := by
    constructor <;> rintro ⟨a, b, c, d⟩ <;> exact ⟨a, by omega, c, by omega⟩
  rw [if_congr hiff rfl rfl]

/-- Witness for C3 at `(0, 3) × (0, 4)`, `numThreads = 2`, cell `(1, 2)`. -/
theorem c3_witness :
    exceptOk (parallel_for_2d (fun _ => true) (fun _ _ => true) 0 3 0 4 2) = true ∧
    (invocations2D (parallel_for_2d (fun _ => true) (fun _ _ => true) 0 3 0 4 2)).count (1, 2)
      = if (0 : Int) ≤ 1 ∧ (1 : Int) < 3 ∧ (0 : Int) ≤ 2 ∧ (2 : Int) < 4 then 1 else 0 :=
  ⟨(c3_parallel_for_2d_each_cell_once.1 0 3 0 4 2 (by decide) (by decide) (by decide)).1,
   (c3_parallel_for_2d_each_cell_once.1 0 3 0 4 2 (by decide) (by decide) (by decide)).2 1 2⟩

/-- Claim C4: with `cols ≥ 1` and `rows ≥ 0`, the row-major unflattening
`map2d` is a total bijection between the flat range `[0, rows*cols)` and
the grid `[low1, low1+rows) × [low2, low2+cols)`, with inverse
`unmap2d (i, j) = (i - low1)*cols + (j - low2)`; consecutive flat indices
first exhaust the column dimension: while the column is not the last one
the row is unchanged and the column advances by 1, and at the end of a
row the next flat index moves to the next row at the column origin. -/
theorem c4_map2d_bijection :
    ∀ low1 low2 rows cols : Int, 1 ≤ cols → 0 ≤ rows →
      (∀ f : Int, 0 ≤ f → f < rows * cols →
        (low1 ≤ (map2d low1 low2 cols f).1 ∧ (map2d low1 low2 cols f).1 < low1 + rows ∧
         low2 ≤ (map2d low1 low2 cols f).2 ∧ (map2d low1 low2 cols f).2 < low2 + cols) ∧
        unmap2d low1 low2 cols (map2d low1 low2 cols f) = f) ∧
      (∀ i j : Int, low1 ≤ i → i < low1 + rows → low2 ≤ j → j < low2 + cols →
        (0 ≤ unmap2d low1 low2 cols (i, j) ∧ unmap2d low1 low2 cols (i, j) < rows * cols) ∧
        map2d low1 low2 cols (unmap2d low1 low2 cols (i, j)) = (i, j)) ∧
      (∀ f : Int, 0 ≤ f →
        (map2d low1 low2 cols f).2 + 1 < low2 + cols →
        map2d low1 low2 cols (f + 1)
          = ((map2d low1 low2 cols f).1, (map2d low1 low2 cols f).2 + 1)) ∧
      (∀ f : Int, 0 ≤ f →
        (map2d low1 low2 cols f).2 + 1 = low2 + cols →
        map2d low1 low2 cols (f + 1) = ((map2d low1 low2 cols f).1 + 1, low2)) := by
  intro low1 low2 rows cols hc hr
  refine ⟨?_, ?_, ?_, ?_⟩
  · intro f h0 h1
    exact ⟨map2d_mem low1 low2 cols rows (by omega) f h0 h1,
      unmap2d_map2d _ _ _ _ (by omega) h0⟩
  · intro i j hi0 hi1 hj0 hj1
    exact ⟨unmap2d_range _ _ _ _ (by omega) i j hi0 hi1 hj0 hj1,
      map2d_unmap2d _ _ _ (by omega) i j hi0 hj0 hj1⟩
  · intro f h0 hcond
    have hq := Int.ediv_add_emod f cols
    have hm0 : 0 ≤ f % cols := Int.emod_nonneg _ (by omega)
    have hr1 : f % cols + 1 < cols := by
      rw [map2d_spec _ _ _ _ (by omega) h0] at hcond
      dsimp only at hcond
      omega
    rw [map2d_spec _ _ _ _ (by omega) h0, map2d_spec _ _ _ _ (by omega) (by omega)]
    have he : f + 1 = (f % cols + 1) + (f / cols) * cols := by linear_combination - hq
    have hdiv : (f + 1) / cols = f / cols := by
      rw [he, Int.add_mul_ediv_right _ _ (show cols ≠ 0 by omega),
        Int.ediv_eq_zero_of_lt (by omega) hr1]
      ring
    have hmod : (f + 1) % cols = f % cols + 1 := by
      rw [he, Int.add_mul_emod_self, Int.emod_eq_of_lt (by omega) hr1]
    rw [hdiv, hmod]
    dsimp only
    rw [show f % cols + 1 + low2 = f % cols + low2 + 1 from by ring]
  · intro f h0 hcond
    have hq := Int.ediv_add_emod f cols
    have hm0 : 0 ≤ f % cols := Int.emod_nonneg _ (by omega)
    have hr1 : f % cols + 1 = cols := by
      rw [map2d_spec _ _ _ _ (by omega) h0] at hcond
      dsimp only at hcond
      omega
    rw [map2d_spec _ _ _ _ (by omega) h0, map2d_spec _ _ _ _ (by omega) (by omega)]
    have he : f + 1 = 0 + (f / cols + 1) * cols := by linear_combination hr1 - hq
    have hdiv : (f + 1) / cols = f / cols + 1 := by
      rw [he, Int.add_mul_ediv_right _ _ (show cols ≠ 0 by omega), Int.zero_ediv]
      ring
    have hmod : (f + 1) % cols = 0 := by
      rw [he, Int.add_mul_emod_self, Int.zero_emod]
    rw [hdiv, hmod]
    dsimp only
    rw [show (0 : Int) + low2 = low2 from by ring,
      show f / cols + 1 + low1 = f / cols + low1 + 1 from by ring]

/-- Witness for C4 at `low1 = low2 = 0`, `rows = 3`, `cols = 4`, `f = 5`. -/
theorem c4_witness :
    ((0 : Int) ≤ (map2d 0 0 4 5).1 ∧ (map2d 0 0 4 5).1 < 0 + 3 ∧
     (0 : Int) ≤ (map2d 0 0 4 5).2 ∧ (map2d 0 0 4 5).2 < 0 + 4) ∧
    unmap2d 0 0 4 (map2d 0 0 4 5) = 5 :=
  (c4_map2d_bijection 0 0 3 4 (by decide) (by decide)).1 5 (by decide) (by decide)

theorem pf2_overflow (createOk : Nat → Bool) (body : Int → Int → Bool)
    (low1 high1 low2 high2 nt : Int) (h1 : low1 < high1) (h2 : low2 < high2)
    (hov : INT_MAX < flatTotal low1 high1 low2 high2) :
    parallel_for_2d createOk body low1 high1 low2 high2 nt
      = .error .overflowError := by
  have htot : 0 < flatTotal low1 high1 low2 high2 := mul_pos (by omega) (by omega)
  unfold flatTotal at htot hov
  simp only [parallel_for_2d]
  rw [if_neg (show ¬ (low1 ≥ high1 ∨ low2 ≥ high2) by omega),
    if_neg (show ¬ (high1 - low1) * (high2 - low2) ≤ 0 by omega),
    if_pos hov]

/-- Claim C5: a 2-D call with both dimensions non-empty whose flattened
size `rows * cols` exceeds `INT_MAX` fails with the overflow error, for
every callback, every spawn oracle and every `numThreads`: the model
returns the error before the partitioner, the spawn loop or any callback
invocation is reached, so a failing call performs no work at all. -/
theorem c5_overflow_before_dispatch :
    ∀ (createOk : Nat → Bool) (body : Int → Int → Bool)
      (low1 high1 low2 high2 nt : Int),
      low1 < high1 → low2 < high2 →
      INT_MAX < flatTotal low1 high1 low2 high2 →
      parallel_for_2d createOk body low1 high1 low2 high2 nt
        = .error .overflowError := by
  intro createOk body low1 high1 low2 high2 nt h1 h2 hov
  exact pf2_overflow createOk body low1 high1 low2 high2 nt h1 h2 hov

/-- Witness for C5 at the range `(0, 65536) × (0, 65536)`, whose
flattened size `2^32` exceeds `INT_MAX`. -/
theorem c5_witness :
    parallel_for_2d (fun _ => true) (fun _ _ => true) 0 65536 0 65536 4
      = .error .overflowError :=
  c5_overflow_before_dispatch (fun _ => true) (fun _ _ => true) 0 65536 0 65536 4
    (by decide) (by decide) (by decide)

/-- Claim C6: on either entry point, if the k-th worker creation fails
(0-based index `k`: the workers with ids `0 .. k-1` were already
spawned), the call joins exactly those `k` already-spawned workers — the
startup error carries the joined list `List.range k`, which is the whole
spawned set, so no spawned worker is left unjoined — and only then
surfaces the startup failure. -/
theorem c6_spawn_failure_joins_then_throws :
    (∀ (createOk : Nat → Bool) (body : Int → Bool) (low high nt : Int) (k : Nat),
      low < high → (k : Int) < ntCoerce nt - 1 →
      (∀ j, j < k → createOk j = true) → createOk k = false →
      parallel_for_1d createOk body low high nt
        = .error (.startupFailure (List.range k))) ∧
    (∀ (createOk : Nat → Bool) (body : Int → Int → Bool)
      (low1 high1 low2 high2 nt : Int) (k : Nat),
      low1 < high1 → low2 < high2 → flatTotal low1 high1 low2 high2 ≤ INT_MAX →
      (k : Int) < ntCoerce nt - 1 →
      (∀ j, j < k → createOk j = true) → createOk k = false →
      parallel_for_2d createOk body low1 high1 low2 high2 nt
        = .error (.startupFailure (List.range k))) := by
  constructor
  · intro createOk body low high nt k h hk hok hfail
    have hnt : 0 < ntCoerce nt := by unfold ntCoerce; split <;> omega
    have hlen : ((sm_split_range low high (ntCoerce nt)).length : Int) = ntCoerce nt := by
      rw [sm_split_range_length low high _ hnt]; omega
    have hkn : k < (ntCoerce nt - 1).toNat := by omega
    have hsp := sm_spawn_fail createOk k ((ntCoerce nt - 1).toNat) hkn hok hfail
    simp only [parallel_for_1d, hlen, eq_self_iff_true, if_true, hsp]
    rw [if_neg (show ¬ low ≥ high by omega)]
  · intro createOk body low1 high1 low2 high2 nt k h1 h2 hmax hk hok hfail
    have htot : 0 < flatTotal low1 high1 low2 high2 := mul_pos (by omega) (by omega)
    have hnt : 0 < ntCoerce nt := by unfold ntCoerce; split <;> omega
    have hlen : ((sm_split_range 0 (flatTotal low1 high1 low2 high2)
        (ntCoerce nt)).length : Int) = ntCoerce nt := by
      rw [sm_split_range_length _ _ _ hnt]; omega
    have hkn : k < (ntCoerce nt - 1).toNat := by omega
    have hsp := sm_spawn_fail createOk k ((ntCoerce nt - 1).toNat) hkn hok hfail
    unfold flatTotal at htot hmax hlen
    simp only [parallel_for_2d, hlen, eq_self_iff_true, if_true, hsp]
    rw [if_neg (show ¬ (low1 ≥ high1 ∨ low2 ≥ high2) by omega),
      if_neg (show ¬ (high1 - low1) * (high2 - low2) ≤ 0 by omega),
      if_neg (show ¬ INT_MAX < (high1 - low1) * (high2 - low2) by omega)]

/-- Witness for C6: with creation failing at spawn index 2 of a call that
wants 4 workers, the error carries the joined workers `[0, 1]`. -/
theorem c6_witness :
    parallel_for_1d (fun t => decide (t < 2)) (fun _ => true) 0 100 5
      = .error (.startupFailure (List.range 2)) :=
  c6_spawn_failure_joins_then_throws.1 (fun t => decide (t < 2)) (fun _ => true)
    0 100 5 2 (by decide) (by decide) (fun j hj => by simpa using hj) (by decide)

/-- Claim C7: an exception raised by the callback while it runs on a
background worker's partition is swallowed at the worker boundary and
never reaches the caller (the call still returns normally), whereas an
exception raised while the calling thread runs its own partition
(the last one) propagates out of the call. -/
theorem c7_worker_exception_swallowed_main_propagated :
    (∀ (body : Int → Bool) (low high nt : Int),
      low < high →
      (∀ i ∈ partIndices (mainPartition1D low high nt), body i = true) →
      exceptOk (parallel_for_1d (fun _ => true) body low high nt) = true) ∧
    (∀ (body : Int → Bool) (low high nt : Int),
      low < high →
      (∃ i ∈ partIndices (mainPartition1D low high nt), body i = false) →
      parallel_for_1d (fun _ => true) body low high nt = .error .callbackFailure) := by
  constructor
  · intro body low high nt h hmain
    rw [pf1_run (fun _ => true) body low high nt h (fun t => rfl)]
    simp only [runSeq_all_true body _ hmain]
    rw [if_neg (by simp)]
    rfl
  · intro body low high nt h hex
    rw [pf1_run (fun _ => true) body low high nt h (fun t => rfl)]
    rw [if_pos ((runSeq_raised_iff body _).2 hex)]

/-- Witness for C7 on `parallel_for(0, 10, ·, 3)` (main partition is
`[7, 10)`): a callback failing only at index 3 (a worker index) is
swallowed; one failing at index 8 (a main-thread index) propagates. -/
theorem c7_witness :
    exceptOk (parallel_for_1d (fun _ => true) (fun i => decide (i ≠ 3)) 0 10 3) = true ∧
    parallel_for_1d (fun _ => true) (fun i => decide (i ≠ 8)) 0 10 3
      = .error .callbackFailure :=
  ⟨c7_worker_exception_swallowed_main_propagated.1 (fun i => decide (i ≠ 3)) 0 10 3
      (by decide) (by decide),
   c7_worker_exception_swallowed_main_propagated.2 (fun i => decide (i ≠ 8)) 0 10 3
      (by decide) (by decide)⟩

/-! ### Single-threaded normal forms and ordering helpers -/

theorem pf1_one (createOk : Nat → Bool) (body : Int → Bool) (low high : Int)
    (h : low < high) :
    parallel_for_1d createOk body low high 1
      = if (runSeq body (partIndices (mainPartition1D low high 1))).2
        then .error .callbackFailure
        else .ok ⟨[], (runSeq body (partIndices (mainPartition1D low high 1))).1⟩ := by
  have hlen : ((sm_split_range low high (ntCoerce 1)).length : Int) = ntCoerce 1 := by
    rw [sm_split_range_length low high _ (by norm_num [ntCoerce])]
    norm_num [ntCoerce]
  have hout : sm_spawn createOk ((ntCoerce 1 - 1).toNat) = .ok [] := rfl
  simp only [parallel_for_1d, hlen, eq_self_iff_true, if_true, hout]
  rw [if_neg (show ¬ low ≥ high by omega)]
  rfl

theorem pf2_one (createOk : Nat → Bool) (body : Int → Int → Bool)
    (low1 high1 low2 high2 : Int) (h1 : low1 < high1) (h2 : low2 < high2)
    (hmax : flatTotal low1 high1 low2 high2 ≤ INT_MAX) :
    parallel_for_2d createOk body low1 high1 low2 high2 1
      = if (runSeq (fun flat => body (map2d low1 low2 (high2 - low2) flat).1
              (map2d low1 low2 (high2 - low2) flat).2)
            (partIndices (mainPartition2D low1 high1 low2 high2 1))).2
        then .error .callbackFailure
        else .ok ⟨[],
          ((runSeq (fun flat => body (map2d low1 low2 (high2 - low2) flat).1
              (map2d low1 low2 (high2 - low2) flat).2)
            (partIndices (mainPartition2D low1 high1 low2 high2 1))).1).map
            (map2d low1 low2 (high2 - low2))⟩ := by
  have htot : 0 < flatTotal low1 high1 low2 high2 := mul_pos (by omega) (by omega)
  have hlen : ((sm_split_range 0 (flatTotal low1 high1 low2 high2)
      (ntCoerce 1)).length : Int) = ntCoerce 1 := by
    rw [sm_split_range_length _ _ _ (by norm_num [ntCoerce])]
    norm_num [ntCoerce]
  have hout : sm_spawn createOk ((ntCoerce 1 - 1).toNat) = .ok [] := rfl
  unfold flatTotal at htot hmax hlen
  simp only [parallel_for_2d, flatTotal, mainPartition2D, mainPartition1D, hlen,
    eq_self_iff_true, if_true, hout]
  rw [if_neg (show ¬ (low1 ≥ high1 ∨ low2 ≥ high2) by omega),
    if_neg (show ¬ (high1 - low1) * (high2 - low2) ≤ 0 by omega),
    if_neg (show ¬ INT_MAX < (high1 - low1) * (high2 - low2) by omega)]
  rfl

/-- Claim C8: for every input range, callback and spawn oracle, a call
with `numThreads ≤ 0` is identical to the same call with
`numThreads = 1`, and a `numThreads = 1` call spawns no worker at all
(its execution record has no worker trace). -/
theorem c8_nonpositive_numthreads_like_one :
    (∀ (createOk : Nat → Bool) (body : Int → Bool) (low high nt : Int), nt ≤ 0 →
      parallel_for_1d createOk body low high nt
        = parallel_for_1d createOk body low high 1) ∧
    (∀ (createOk : Nat → Bool) (body : Int → Int → Bool)
      (low1 high1 low2 high2 nt : Int), nt ≤ 0 →
      parallel_for_2d createOk body low1 high1 low2 high2 nt
        = parallel_for_2d createOk body low1 high1 low2 high2 1) ∧
    (∀ (createOk : Nat → Bool) (body : Int → Bool) (low high : Int) (e : Exec1D),
      parallel_for_1d createOk body low high 1 = .ok e → e.workerRuns = []) ∧
    (∀ (createOk : Nat → Bool) (body : Int → Int → Bool) (low1 high1 low2 high2 : Int)
      (e : Exec2D),
      parallel_for_2d createOk body low1 high1 low2 high2 1 = .ok e → e.workerRuns = []) := by
  have hco : ∀ nt : Int, nt ≤ 0 → ntCoerce nt = ntCoerce 1 := by
    intro nt hnt
    unfold ntCoerce
    rw [if_pos hnt, if_neg (by norm_num)]
  refine ⟨?_, ?_, ?_, ?_⟩
  · intro createOk body low high nt hnt
    simp only [parallel_for_1d, hco nt hnt]
  · intro createOk body low1 high1 low2 high2 nt hnt
    simp only [parallel_for_2d, hco nt hnt]
  · intro createOk body low high e he
    by_cases h : low ≥ high
    · have hempty : parallel_for_1d createOk body low high 1 = .ok ⟨[], []⟩ := by
        simp only [parallel_for_1d]
        rw [if_pos h]
      rw [hempty] at he
      simp only [Except.ok.injEq] at he
      rw [← he]
    · rw [pf1_one createOk body low high (by omega)] at he
      split at he
      · simp at he
      · simp only [Except.ok.injEq] at he
        rw [← he]
  · intro createOk body low1 high1 low2 high2 e he
    by_cases hg : low1 ≥ high1 ∨ low2 ≥ high2
    · have hempty : parallel_for_2d createOk body low1 high1 low2 high2 1 = .ok ⟨[], []⟩ := by
        simp only [parallel_for_2d]
        rw [if_pos hg]
      rw [hempty] at he
      simp only [Except.ok.injEq] at he
      rw [← he]
    · push_neg at hg
      by_cases hov : INT_MAX < flatTotal low1 high1 low2 high2
      · rw [pf2_overflow createOk body low1 high1 low2 high2 1 (by omega) (by omega) hov] at he
        simp at he
      · rw [pf2_one createOk body low1 high1 low2 high2 (by omega) (by omega) (by omega)] at he
        split at he
        · simp at he
        · simp only [Except.ok.injEq] at he
          rw [← he]

/-- Witness for C8 at `low = 0`, `high = 5`, `numThreads = -2`. -/
theorem c8_witness :
    parallel_for_1d (fun _ => true) (fun _ => true) 0 5 (-2)
      = parallel_for_1d (fun _ => true) (fun _ => true) 0 5 1 :=
  c8_nonpositive_numthreads_like_one.1 (fun _ => true) (fun _ => true) 0 5 (-2) (by decide)

theorem pairwise_partIndices (p : Int × Int) : (partIndices p).Pairwise (· < ·) :=
  pairwise_intRange p.1 p.2

theorem runSeq_pairwise (body : Int → Bool) (l : List Int)
    (h : List.Pairwise (· < ·) l) : List.Pairwise (· < ·) (runSeq body l).1 :=
  List.Pairwise.sublist (runSeq_sublist body l) h

/-- Claim C9: in every successful call, every partition trace — each
worker trace and the calling thread's trace — visits its indices in
strictly increasing order; in the 2-D case each trace is the image under
`map2d` of a strictly increasing list of flat indices. -/
theorem c9_indices_increasing_within_partition :
    (∀ (createOk : Nat → Bool) (body : Int → Bool) (low high nt : Int) (e : Exec1D),
      parallel_for_1d createOk body low high nt = .ok e →
      (∀ tr ∈ e.workerRuns, List.Pairwise (· < ·) tr) ∧
        List.Pairwise (· < ·) e.mainRun) ∧
    (∀ (createOk : Nat → Bool) (body : Int → Int → Bool)
      (low1 high1 low2 high2 nt : Int) (e : Exec2D),
      parallel_for_2d createOk body low1 high1 low2 high2 nt = .ok e →
      ∀ tr ∈ e.mainRun :: e.workerRuns,
        ∃ fl : List Int, List.Pairwise (· < ·) fl ∧
          tr = fl.map (map2d low1 low2 (high2 - low2))) := by
  constructor
  · intro createOk body low high nt e he
    simp only [parallel_for_1d] at he
    split at he
    · simp only [Except.ok.injEq] at he
      rw [← he]
      constructor
      · intro tr htr
        simp at htr
      · exact List.Pairwise.nil
    · have hnt : 0 < ntCoerce nt := by unfold ntCoerce; split <;> omega
      have hlen : ((sm_split_range low high (ntCoerce nt)).length : Int) = ntCoerce nt := by
        rw [sm_split_range_length low high _ hnt]; omega
      simp only [hlen, eq_self_iff_true, if_true] at he
      split at he
      · simp at he
      · split at he
        · simp at he
        · simp only [Except.ok.injEq] at he
          rw [← he]
          constructor
          · intro tr htr
            simp only [List.mem_map] at htr
            obtain ⟨t, ht, htr2⟩ := htr
            rw [← htr2]
            exact runSeq_pairwise body _ (pairwise_partIndices _)
          · exact runSeq_pairwise body _ (pairwise_partIndices _)
  · intro createOk body low1 high1 low2 high2 nt e he
    simp only [parallel_for_2d] at he
    split at he
    · simp only [Except.ok.injEq] at he
      rw [← he]
      intro tr htr
      rcases List.mem_cons.1 htr with h | h
      · exact ⟨[], List.Pairwise.nil, by simpa using h⟩
      · simp at h
    · split at he
      · simp only [Except.ok.injEq] at he
        rw [← he]
        intro tr htr
        rcases List.mem_cons.1 htr with h | h
        · exact ⟨[], List.Pairwise.nil, by simpa using h⟩
        · simp at h
      · split at he
        · simp at he
        · have hnt : 0 < ntCoerce nt := by unfold ntCoerce; split <;> omega
          have hlen : ((sm_split_range 0 ((high1 - low1) * (high2 - low2))
              (ntCoerce nt)).length : Int) = ntCoerce nt := by
            rw [sm_split_range_length _ _ _ hnt]; omega
          simp only [hlen, eq_self_iff_true, if_true] at he
          split at he
          · simp at he
          · split at he
            · simp at he
            · simp only [Except.ok.injEq] at he
              rw [← he]
              intro tr htr
              rcases List.mem_cons.1 htr with h | h
              · refine ⟨_, runSeq_pairwise _ _ (pairwise_partIndices _), by simpa using h⟩
              · simp only [List.mem_map] at h
                obtain ⟨t, ht, htr2⟩ := h
                exact ⟨_, runSeq_pairwise _ _ (pairwise_partIndices _), htr2.symm⟩

/-- Witness for C9: the calling thread's trace of
`parallel_for(0, 10, body, 3)` is `[7, 8, 9]`, strictly increasing. -/
theorem c9_witness :
    List.Pairwise (fun a b : Int => a < b) [7, 8, 9] :=
  (c9_indices_increasing_within_partition.1 (fun _ => true) (fun _ => true) 0 10 3
    ⟨[[0, 1, 2, 3], [4, 5, 6]], [7, 8, 9]⟩ (by rfl)).2

/-- Claim C10: in the 2-D entry point the division and modulo by the
column width are guarded: when `low2 ≥ high2` the call returns at once
with the empty execution record, dispatching no work, so whenever any
work is dispatched (the result is anything other than the empty record)
the column width `high2 - low2` is at least 1 and the divisions of
`map2d` cannot divide by zero. -/
theorem c10_division_guarded :
    ∀ (createOk : Nat → Bool) (body : Int → Int → Bool) (low1 high1 low2 high2 nt : Int),
      (high2 ≤ low2 →
        parallel_for_2d createOk body low1 high1 low2 high2 nt = .ok ⟨[], []⟩) ∧
      (parallel_for_2d createOk body low1 high1 low2 high2 nt ≠ .ok ⟨[], []⟩ →
        1 ≤ high2 - low2) := by
  intro createOk body low1 high1 low2 high2 nt
  constructor
  · intro h
    simp only [parallel_for_2d]
    rw [if_pos (Or.inr (by omega))]
  · intro hne
    by_contra hc
    push_neg at hc
    apply hne
    simp only [parallel_for_2d]
    rw [if_pos (Or.inr (by omega))]

/-- Witness for C10 at an empty column range `(0, 3) × (5, 5)`. -/
theorem c10_witness :
    parallel_for_2d (fun _ => true) (fun _ _ => true) 0 3 5 5 2 = .ok ⟨[], []⟩ :=
  (c10_division_guarded (fun _ => true) (fun _ _ => true) 0 3 5 5 2).1 (by decide)
